import Mathlib

/-
Verification of the oscillation-lab notebook (osclab_basic): a shallow
embedding of its three integration cells (undamped, damped, driven) over an
abstract field, together with theorems about the Euler and Euler-Cromer
stepping loops, the time grid, the acceleration laws, the exact-solution
formula, and the energy behaviour of the two schemes.

The notebook stores positions and velocities in mutable arrays x, v of
length N+1, initialised to zeros with x[0] = x0 and v[0] = v0, and runs
`for i in range(0, N)` loops that write index i+1 at iteration i.  Arrays
are modelled as lists updated with List.set; each loop is a List.foldl
over List.range N.  The library sine/cosine (np.sin, np.cos) are modelled
as function parameters sinf, cosf.
-/

namespace OscLab

/-- The two explicit stepping schemes used by the notebook cells. -/
inductive IntegrationScheme : Type
  | euler
  | eulerCromer

namespace Undamped

/-- The undamped acceleration law of the first cell:
`def acc(x, om): return -om**2 * x`. -/
def acc {K : Type} [Field K] (x om : K) : K := -om ^ 2 * x

/-- The exact-solution function of the first cell:
`def ex_sol(t, om, x0, v0): return x0*np.cos(om*t) + v0/om*np.sin(om*t),
-x0*om*np.sin(om*t) + v0*np.cos(om*t)`.  The numpy sine and cosine are
passed in as the function parameters sinf and cosf. -/
def ex_sol {K : Type} [Field K] (sinf cosf : K → K) (t om x0 v0 : K) : K × K :=
  (x0 * cosf (om * t) + v0 / om * sinf (om * t),
   -x0 * om * sinf (om * t) + v0 * cosf (om * t))

end Undamped

namespace Damped

/-- The damped acceleration law of the second cell:
`def acc(x, v, om, de): return -om**2 * x - 2 * de * v`. -/
def acc {K : Type} [Field K] (x v om de : K) : K := -om ^ 2 * x - 2 * de * v

end Damped

namespace Driven

/-- The driven acceleration law of the third cell:
`def acc(t, x, v, om, de, a_d, om_d):
return -om**2 * x - 2 * de * v + a_d * np.sin(om_d * t)`.
The numpy sine is passed in as the function parameter sinf. -/
def acc {K : Type} [Field K] (sinf : K → K) (t x v om de a_d om_d : K) : K :=
  -om ^ 2 * x - 2 * de * v + a_d * sinf (om_d * t)

end Driven

/-- The acceleration law as the undamped cell's loops supply it:
`a = acc(x[i], om)`; time and velocity are ignored by this law. -/
def undampedLaw {K : Type} [Field K] (om : K) : K → K → K → K :=
  fun _ x _ => Undamped.acc x om

/-- The acceleration law as the damped cell's loop supplies it:
`a = acc(x[i], v[i], om, ze*om)`; the damping coefficient passed to the
law is ze*om. -/
def dampedLaw {K : Type} [Field K] (om ze : K) : K → K → K → K :=
  fun _ x v => Damped.acc x v om (ze * om)

/-- The acceleration law as the driven cell's loop supplies it:
`a = acc(i*dt, x[i], v[i], om, ze*om, a0, om_d)`. -/
def drivenLaw {K : Type} [Field K] (sinf : K → K) (om ze a0 om_d : K) :
    K → K → K → K :=
  fun t x v => Driven.acc sinf t x v om (ze * om) a0 om_d

/-- The mutable state of one notebook cell: the position array x and the
velocity array v (`x = np.zeros(N+1)`, `v = np.zeros(N+1)` after their
index-0 assignments). -/
@[ext]
structure RunState (K : Type) where
  x : List K
  v : List K

/-- One iteration of a notebook stepping loop, at loop index i:
`a = law(i*dt, x[i], v[i])`, then `v[i+1] = v[i] + a*dt`, then
`x[i+1] = x[i] + v[i]*dt` (Euler) or `x[i+1] = x[i] + v[i+1]*dt`
(Euler-Cromer), reading from the array state exactly as the Python code
does (the position update reads the velocity array after the velocity
write). -/
def loopBody {K : Type} [Field K] (sch : IntegrationScheme)
    (law : K → K → K → K) (dt : K) (s : RunState K) (i : ℕ) : RunState K :=
  let a := law ((i : K) * dt) (s.x.getD i 0) (s.v.getD i 0)
  let v2 := s.v.set (i + 1) (s.v.getD i 0 + a * dt)
  match sch with
  | .euler => ⟨s.x.set (i + 1) (s.x.getD i 0 + v2.getD i 0 * dt), v2⟩
  | .eulerCromer => ⟨s.x.set (i + 1) (s.x.getD i 0 + v2.getD (i + 1) 0 * dt), v2⟩

/-- The array state before a loop starts: zero arrays of length N+1 with
`x[0] = x0` and `v[0] = v0`. -/
def initState {K : Type} [Field K] (N : ℕ) (x0 v0 : K) : RunState K :=
  ⟨(List.replicate (N + 1) 0).set 0 x0, (List.replicate (N + 1) 0).set 0 v0⟩

/-- The array state after the first n iterations of a stepping loop run
from the initial state, with dt = tmax/N as in `dt = tmax/N`. -/
def runUpTo {K : Type} [Field K] (sch : IntegrationScheme)
    (law : K → K → K → K) (tmax : K) (N n : ℕ) (x0 v0 : K) : RunState K :=
  (List.range n).foldl (loopBody sch law (tmax / (N : K))) (initState N x0 v0)

/-- A full integration run: the `for i in range(0, N)` loop applied to the
freshly initialised arrays. -/
def run {K : Type} [Field K] (sch : IntegrationScheme)
    (law : K → K → K → K) (tmax : K) (N : ℕ) (x0 v0 : K) : RunState K :=
  runUpTo sch law tmax N N x0 v0

/-- The time grid `t = np.linspace(0, tmax, N+1)`: N+1 equally spaced
samples t_i = i*(tmax/N). -/
def tGrid {K : Type} [Field K] (tmax : K) (N : ℕ) : List K :=
  (List.range (N + 1)).map fun i : ℕ => (i : K) * (tmax / (N : K))

/-- One step of the integration recurrence on a (position, velocity) pair,
used to describe the values the loop writes. -/
def schemeStep {K : Type} [Field K] (sch : IntegrationScheme)
    (law : K → K → K → K) (dt : K) (i : ℕ) (p : K × K) : K × K :=
  let a := law ((i : K) * dt) p.1 p.2
  let v2 := p.2 + a * dt
  match sch with
  | .euler => (p.1 + p.2 * dt, v2)
  | .eulerCromer => (p.1 + v2 * dt, v2)

/-- The integration recurrence iterated from the initial conditions. -/
def schemeIter {K : Type} [Field K] (sch : IntegrationScheme)
    (law : K → K → K → K) (dt x0 v0 : K) : ℕ → K × K
  | 0 => (x0, v0)
  | n + 1 => schemeStep sch law dt n (schemeIter sch law dt x0 v0 n)

/-- The numerically estimated oscillator energy (1/2)v^2 + (1/2)om^2 x^2. -/
def energy {K : Type} [Field K] (om x v : K) : K :=
  v ^ 2 / 2 + om ^ 2 * x ^ 2 / 2

/-- The undamped comparison cell with both flags ec and eu set: the
Euler-Cromer loop runs first, then the Euler loop runs over the same two
arrays x and v. -/
def sessionECThenEuler {K : Type} [Field K] (om tmax : K) (N : ℕ)
    (x0 v0 : K) : RunState K :=
  (List.range N).foldl (loopBody .euler (undampedLaw om) (tmax / (N : K)))
    (run .eulerCromer (undampedLaw om) tmax N x0 v0)

/-! ### Helper lemmas about one loop iteration -/

theorem length_x_loopBody {K : Type} [Field K] (sch : IntegrationScheme)
    (law : K → K → K → K) (dt : K) (s : RunState K) (i : ℕ) :
    (loopBody sch law dt s i).x.length = s.x.length := by
  cases sch <;> simp [loopBody]

theorem length_v_loopBody {K : Type} [Field K] (sch : IntegrationScheme)
    (law : K → K → K → K) (dt : K) (s : RunState K) (i : ℕ) :
    (loopBody sch law dt s i).v.length = s.v.length := by
  cases sch <;> simp [loopBody]

theorem getD_x_loopBody_ne {K : Type} [Field K] (sch : IntegrationScheme)
    (law : K → K → K → K) (dt : K) (s : RunState K) (i k : ℕ) (hk : k ≠ i + 1) :
    (loopBody sch law dt s i).x.getD k 0 = s.x.getD k 0 := by
  cases sch <;>
    simp [loopBody, List.getD_eq_getElem?_getD,
      List.getElem?_set_ne (Ne.symm hk)]

theorem getD_v_loopBody_ne {K : Type} [Field K] (sch : IntegrationScheme)
    (law : K → K → K → K) (dt : K) (s : RunState K) (i k : ℕ) (hk : k ≠ i + 1) :
    (loopBody sch law dt s i).v.getD k 0 = s.v.getD k 0 := by
  cases sch <;>
    simp [loopBody, List.getD_eq_getElem?_getD,
      List.getElem?_set_ne (Ne.symm hk)]

theorem getD_loopBody_write {K : Type} [Field K] (sch : IntegrationScheme)
    (law : K → K → K → K) (dt : K) (s : RunState K) (i : ℕ)
    (hx : i + 1 < s.x.length) (hv : i + 1 < s.v.length) :
    ((loopBody sch law dt s i).x.getD (i + 1) 0,
      (loopBody sch law dt s i).v.getD (i + 1) 0)
      = schemeStep sch law dt i (s.x.getD i 0, s.v.getD i 0) := by
  cases sch <;>
    simp [loopBody, schemeStep, List.getD_eq_getElem?_getD,
      List.getElem?_set_self, hx, hv,
      List.getElem?_set_ne (by omega : i + 1 ≠ i)]

/-! ### The master lemma: what a loop leaves in the arrays -/

theorem foldl_loopBody_spec {K : Type} [Field K] (sch : IntegrationScheme)
    (law : K → K → K → K) (dt : K) (s : RunState K) (N : ℕ)
    (hx : s.x.length = N + 1) (hv : s.v.length = N + 1) :
    ∀ n, n ≤ N →
      ((List.range n).foldl (loopBody sch law dt) s).x.length = N + 1 ∧
      ((List.range n).foldl (loopBody sch law dt) s).v.length = N + 1 ∧
      (∀ k, k ≤ n →
        ((List.range n).foldl (loopBody sch law dt) s).x.getD k 0
          = (schemeIter sch law dt (s.x.getD 0 0) (s.v.getD 0 0) k).1 ∧
        ((List.range n).foldl (loopBody sch law dt) s).v.getD k 0
          = (schemeIter sch law dt (s.x.getD 0 0) (s.v.getD 0 0) k).2) ∧
      (∀ k, n < k →
        ((List.range n).foldl (loopBody sch law dt) s).x.getD k 0 = s.x.getD k 0 ∧
        ((List.range n).foldl (loopBody sch law dt) s).v.getD k 0 = s.v.getD k 0) := by
  intro n
  induction n with
  | zero =>
    intro _
    refine ⟨hx, hv, ?_, fun k _ => ⟨rfl, rfl⟩⟩
    intro k hk
    have hk0 : k = 0 := Nat.le_zero.mp hk
    subst hk0
    exact ⟨rfl, rfl⟩
  | succ n ih =>
    intro hn
    have hn' : n ≤ N := Nat.le_of_succ_le hn
    obtain ⟨ihx, ihv, ihval, ihfr⟩ := ih hn'
    have hstep : (List.range (n + 1)).foldl (loopBody sch law dt) s
        = loopBody sch law dt ((List.range n).foldl (loopBody sch law dt) s) n := by
      rw [List.range_succ, List.foldl_append]
      rfl
    have hwlt_x : n + 1 < ((List.range n).foldl (loopBody sch law dt) s).x.length := by
      rw [ihx]; omega
    have hwlt_v : n + 1 < ((List.range n).foldl (loopBody sch law dt) s).v.length := by
      rw [ihv]; omega
    have hwrite := getD_loopBody_write sch law dt
      ((List.range n).foldl (loopBody sch law dt) s) n hwlt_x hwlt_v
    obtain ⟨hvaln_x, hvaln_v⟩ := ihval n le_rfl
    rw [hvaln_x, hvaln_v] at hwrite
    refine ⟨?_, ?_, ?_, ?_⟩
    · rw [hstep, length_x_loopBody, ihx]
    · rw [hstep, length_v_loopBody, ihv]
    · intro k hk
      rcases Nat.lt_or_ge k (n + 1) with hlt | hge
      · have hkn : k ≤ n := by omega
        have hne : k ≠ n + 1 := by omega
        obtain ⟨hx1, hv1⟩ := ihval k hkn
        rw [hstep, getD_x_loopBody_ne sch law dt _ n k hne,
          getD_v_loopBody_ne sch law dt _ n k hne]
        exact ⟨hx1, hv1⟩
      · have hk1 : k = n + 1 := by omega
        subst hk1
        rw [hstep]
        constructor
        · have := congrArg Prod.fst hwrite
          simpa [schemeIter] using this
        · have := congrArg Prod.snd hwrite
          simpa [schemeIter] using this
    · intro k hk
      have hne : k ≠ n + 1 := by omega
      have hkn : n < k := by omega
      obtain ⟨hx1, hv1⟩ := ihfr k hkn
      rw [hstep, getD_x_loopBody_ne sch law dt _ n k hne,
        getD_v_loopBody_ne sch law dt _ n k hne]
      exact ⟨hx1, hv1⟩

/-! ### Instantiation at the freshly initialised arrays -/

theorem initState_x_length {K : Type} [Field K] (N : ℕ) (x0 v0 : K) :
    (initState N x0 v0 : RunState K).x.length = N + 1 := by
  simp [initState]

theorem initState_v_length {K : Type} [Field K] (N : ℕ) (x0 v0 : K) :
    (initState N x0 v0 : RunState K).v.length = N + 1 := by
  simp [initState]

theorem initState_x_zero {K : Type} [Field K] (N : ℕ) (x0 v0 : K) :
    (initState N x0 v0 : RunState K).x.getD 0 0 = x0 := by
  simp [initState, List.getD_eq_getElem?_getD, List.getElem?_set_self]

theorem initState_v_zero {K : Type} [Field K] (N : ℕ) (x0 v0 : K) :
    (initState N x0 v0 : RunState K).v.getD 0 0 = v0 := by
  simp [initState, List.getD_eq_getElem?_getD, List.getElem?_set_self]

theorem runUpTo_spec {K : Type} [Field K] (sch : IntegrationScheme)
    (law : K → K → K → K) (tmax : K) (N : ℕ) (x0 v0 : K) (n : ℕ) (hn : n ≤ N) :
    (runUpTo sch law tmax N n x0 v0).x.length = N + 1 ∧
    (runUpTo sch law tmax N n x0 v0).v.length = N + 1 ∧
    (∀ k, k ≤ n →
      (runUpTo sch law tmax N n x0 v0).x.getD k 0
        = (schemeIter sch law (tmax / (N : K)) x0 v0 k).1 ∧
      (runUpTo sch law tmax N n x0 v0).v.getD k 0
        = (schemeIter sch law (tmax / (N : K)) x0 v0 k).2) ∧
    (∀ k, n < k →
      (runUpTo sch law tmax N n x0 v0).x.getD k 0
        = (initState N x0 v0 : RunState K).x.getD k 0 ∧
      (runUpTo sch law tmax N n x0 v0).v.getD k 0
        = (initState N x0 v0 : RunState K).v.getD k 0) := by
  have h := foldl_loopBody_spec sch law (tmax / (N : K)) (initState N x0 v0) N
    (initState_x_length N x0 v0) (initState_v_length N x0 v0) n hn
  rwa [initState_x_zero, initState_v_zero] at h

theorem run_spec {K : Type} [Field K] (sch : IntegrationScheme)
    (law : K → K → K → K) (tmax : K) (N : ℕ) (x0 v0 : K) :
    (run sch law tmax N x0 v0).x.length = N + 1 ∧
    (run sch law tmax N x0 v0).v.length = N + 1 ∧
    (∀ k, k ≤ N →
      (run sch law tmax N x0 v0).x.getD k 0
        = (schemeIter sch law (tmax / (N : K)) x0 v0 k).1 ∧
      (run sch law tmax N x0 v0).v.getD k 0
        = (schemeIter sch law (tmax / (N : K)) x0 v0 k).2) := by
  obtain ⟨h1, h2, h3, _⟩ := runUpTo_spec sch law tmax N x0 v0 N le_rfl
  exact ⟨h1, h2, h3⟩

theorem list_eq_of_length_getD {K : Type} [Field K] (l1 l2 : List K) (N : ℕ)
    (h1 : l1.length = N + 1) (h2 : l2.length = N + 1)
    (h : ∀ k, k ≤ N → l1.getD k 0 = l2.getD k 0) : l1 = l2 := by
  apply List.ext_getElem (by rw [h1, h2])
  intro i hi1 hi2
  have hk : i ≤ N := by omega
  have hi := h i hk
  rwa [List.getD_eq_getElem l1 0 hi1, List.getD_eq_getElem l2 0 hi2] at hi

theorem tGrid_length {K : Type} [Field K] (tmax : K) (N : ℕ) :
    (tGrid tmax N).length = N + 1 := by
  rw [tGrid, List.length_map, List.length_range]

theorem tGrid_getD {K : Type} [Field K] (tmax : K) (N i : ℕ) (h : i ≤ N) :
    (tGrid tmax N).getD i 0 = (i : K) * (tmax / (N : K)) := by
  have h' : i < N + 1 := by omega
  rw [List.getD_eq_getElem?_getD, tGrid, List.getElem?_map, List.getElem?_range h']
  rfl

theorem runUpTo_succ {K : Type} [Field K] (sch : IntegrationScheme)
    (law : K → K → K → K) (tmax : K) (N n : ℕ) (x0 v0 : K) :
    runUpTo sch law tmax N (n + 1) x0 v0
      = loopBody sch law (tmax / (N : K)) (runUpTo sch law tmax N n x0 v0) n := by
  unfold runUpTo
  rw [List.range_succ, List.foldl_append]
  rfl

/-! ### Claim theorems -/

/-- C4: for every valid run (tmax > 0, N ≥ 1) the time samples of
`t = np.linspace(0, tmax, N+1)` satisfy t_i = i·(tmax/N) for every i ≤ N,
with t_0 = 0 and t_N = tmax, and the time grid is strictly increasing. -/
theorem C4_time_grid (tmax : ℝ) (N : ℕ) (htmax : 0 < tmax) (hN : 1 ≤ N) :
    (∀ i, i ≤ N → (tGrid tmax N).getD i 0 = (i : ℝ) * (tmax / (N : ℝ))) ∧
    (tGrid tmax N).getD 0 0 = 0 ∧
    (tGrid tmax N).getD N 0 = tmax ∧
    (∀ i, i < N → (tGrid tmax N).getD i 0 < (tGrid tmax N).getD (i + 1) 0) := by
  have hNR : ((N : ℝ)) ≠ 0 := Nat.cast_ne_zero.mpr (by omega)
  have hdt : 0 < tmax / (N : ℝ) := by
    apply div_pos htmax
    exact_mod_cast Nat.pos_of_ne_zero (by omega)
  refine ⟨fun i hi => tGrid_getD tmax N i hi, ?_, ?_, ?_⟩
  · rw [tGrid_getD tmax N 0 (Nat.zero_le N)]
    simp
  · rw [tGrid_getD tmax N N le_rfl]
    field_simp
  · intro i hi
    rw [tGrid_getD tmax N i (by omega), tGrid_getD tmax N (i + 1) (by omega)]
    have hcast : (i : ℝ) < ((i + 1 : ℕ) : ℝ) := by exact_mod_cast Nat.lt_succ_self i
    exact mul_lt_mul_of_pos_right hcast hdt

/-- C5: for every valid step count N ≥ 1 one integration run yields arrays of
exactly N+1 samples (including the initial point), and the first samples are
exactly the caller-supplied initial conditions x0 and v0. -/
theorem C5_length_and_initial (sch : IntegrationScheme) (law : ℝ → ℝ → ℝ → ℝ)
    (tmax : ℝ) (N : ℕ) (x0 v0 : ℝ) (_hN : 1 ≤ N) :
    (run sch law tmax N x0 v0).x.length = N + 1 ∧
    (run sch law tmax N x0 v0).v.length = N + 1 ∧
    (tGrid tmax N).length = N + 1 ∧
    (run sch law tmax N x0 v0).x.getD 0 0 = x0 ∧
    (run sch law tmax N x0 v0).v.getD 0 0 = v0 := by
  obtain ⟨h1, h2, h3⟩ := run_spec sch law tmax N x0 v0
  obtain ⟨hx0, hv0⟩ := h3 0 (Nat.zero_le N)
  exact ⟨h1, h2, tGrid_length tmax N, hx0, hv0⟩

/-- C6: the three acceleration laws compute exactly the spec formulas
(-om^2 x; -om^2 x - 2 de v; -om^2 x - 2 de v + a_d sin(om_d t)), and the
damped and driven loops supply the damping coefficient de = ze*om to the
law.  Each law is a plain function of its arguments (stateless by
construction). -/
theorem C6_acceleration_laws (sinf : ℝ → ℝ) (t x v om de ze a_d a0 om_d : ℝ) :
    Undamped.acc x om = -om ^ 2 * x ∧
    Damped.acc x v om de = -om ^ 2 * x - 2 * de * v ∧
    Driven.acc sinf t x v om de a_d om_d
      = -om ^ 2 * x - 2 * de * v + a_d * sinf (om_d * t) ∧
    undampedLaw om t x v = -om ^ 2 * x ∧
    dampedLaw om ze t x v = -om ^ 2 * x - 2 * (ze * om) * v ∧
    drivenLaw sinf om ze a0 om_d t x v
      = -om ^ 2 * x - 2 * (ze * om) * v + a0 * sinf (om_d * t) :=
  ⟨rfl, rfl, rfl, rfl, rfl, rfl⟩

/-- C7: for every t, om ≠ 0, x0, v0 the exact-solution function returns the
pair (x0 cos(om t) + (v0/om) sin(om t), -x0 om sin(om t) + v0 cos(om t)),
evaluated pointwise with the library sine and cosine. -/
theorem C7_exact_solution (t om x0 v0 : ℝ) (_h : om ≠ 0) :
    Undamped.ex_sol Real.sin Real.cos t om x0 v0
      = (x0 * Real.cos (om * t) + v0 / om * Real.sin (om * t),
         -x0 * om * Real.sin (om * t) + v0 * Real.cos (om * t)) := rfl

theorem C7_witness :
    (1 : ℝ) ≠ 0 ∧
    Undamped.ex_sol Real.sin Real.cos 0 1 1 2
      = (1 * Real.cos (1 * 0) + 2 / 1 * Real.sin (1 * 0),
         -1 * 1 * Real.sin (1 * 0) + 2 * Real.cos (1 * 0)) :=
  ⟨one_ne_zero, C7_exact_solution 0 1 1 2 one_ne_zero⟩

theorem runUpTo_zero {K : Type} [Field K] (sch : IntegrationScheme)
    (law : K → K → K → K) (tmax : K) (N : ℕ) (x0 v0 : K) :
    runUpTo sch law tmax N 0 x0 v0 = initState N x0 v0 := by
  simp [runUpTo]

/-- C1: at every step i < N of a run, the acceleration is the supplied law
evaluated at the already-known state (t_i, x_i, v_i) — never a look-ahead
state; the velocity update is v_{i+1} = v_i + a_i·dt under both schemes;
the position update is x_{i+1} = x_i + v_i·dt under Euler and
x_{i+1} = x_i + v_{i+1}·dt under Euler-Cromer, with dt = tmax/N. -/
theorem C1_step_rule (sch : IntegrationScheme) (law : ℝ → ℝ → ℝ → ℝ)
    (tmax : ℝ) (N : ℕ) (x0 v0 : ℝ) (i : ℕ) (hi : i < N) :
    (run sch law tmax N x0 v0).v.getD (i + 1) 0
      = (run sch law tmax N x0 v0).v.getD i 0
        + law ((tGrid tmax N).getD i 0)
            ((run sch law tmax N x0 v0).x.getD i 0)
            ((run sch law tmax N x0 v0).v.getD i 0) * (tmax / (N : ℝ)) ∧
    (sch = .euler →
      (run sch law tmax N x0 v0).x.getD (i + 1) 0
        = (run sch law tmax N x0 v0).x.getD i 0
          + (run sch law tmax N x0 v0).v.getD i 0 * (tmax / (N : ℝ))) ∧
    (sch = .eulerCromer →
      (run sch law tmax N x0 v0).x.getD (i + 1) 0
        = (run sch law tmax N x0 v0).x.getD i 0
          + (run sch law tmax N x0 v0).v.getD (i + 1) 0 * (tmax / (N : ℝ))) := by
  obtain ⟨-, -, hval⟩ := run_spec sch law tmax N x0 v0
  obtain ⟨hxi, hvi⟩ := hval i (by omega)
  obtain ⟨hxi1, hvi1⟩ := hval (i + 1) (by omega)
  rw [hxi, hvi, hxi1, hvi1, tGrid_getD tmax N i (by omega)]
  refine ⟨?_, ?_, ?_⟩
  · cases sch <;> simp [schemeIter, schemeStep]
  · rintro rfl
    simp [schemeIter, schemeStep]
  · rintro rfl
    simp [schemeIter, schemeStep]

theorem C1_witness :
    (0 : ℕ) < 1 ∧
    (run .euler (undampedLaw (1 : ℝ)) 1 1 1 0).v.getD (0 + 1) 0
      = (run .euler (undampedLaw (1 : ℝ)) 1 1 1 0).v.getD 0 0
        + undampedLaw (1 : ℝ) ((tGrid (1 : ℝ) 1).getD 0 0)
            ((run .euler (undampedLaw (1 : ℝ)) 1 1 1 0).x.getD 0 0)
            ((run .euler (undampedLaw (1 : ℝ)) 1 1 1 0).v.getD 0 0)
          * ((1 : ℝ) / ((1 : ℕ) : ℝ)) :=
  ⟨Nat.one_pos, (C1_step_rule .euler (undampedLaw 1) 1 1 1 0 0 Nat.one_pos).1⟩

/-- C3: for the same law and inputs both schemes produce the same first-step
velocity v_1; Euler's first-step position is x0 + v0·dt while Euler-Cromer's
is x0 + v1·dt, and the two positions differ whenever the initial
acceleration law(0, x0, v0) is nonzero. -/
theorem C3_first_step (law : ℝ → ℝ → ℝ → ℝ) (tmax : ℝ) (N : ℕ) (x0 v0 : ℝ)
    (htmax : 0 < tmax) (hN : 1 ≤ N) :
    (run .euler law tmax N x0 v0).v.getD 1 0
      = (run .eulerCromer law tmax N x0 v0).v.getD 1 0 ∧
    (run .euler law tmax N x0 v0).x.getD 1 0 = x0 + v0 * (tmax / (N : ℝ)) ∧
    (run .eulerCromer law tmax N x0 v0).x.getD 1 0
      = x0 + (run .eulerCromer law tmax N x0 v0).v.getD 1 0 * (tmax / (N : ℝ)) ∧
    (law 0 x0 v0 ≠ 0 →
      (run .euler law tmax N x0 v0).x.getD 1 0
        ≠ (run .eulerCromer law tmax N x0 v0).x.getD 1 0) := by
  have hdt : tmax / (N : ℝ) ≠ 0 :=
    div_ne_zero (ne_of_gt htmax) (Nat.cast_ne_zero.mpr (by omega))
  obtain ⟨-, -, hE⟩ := run_spec .euler law tmax N x0 v0
  obtain ⟨-, -, hC⟩ := run_spec .eulerCromer law tmax N x0 v0
  obtain ⟨hEx, hEv⟩ := hE 1 (by omega)
  obtain ⟨hCx, hCv⟩ := hC 1 (by omega)
  rw [hEx, hEv, hCx, hCv]
  refine ⟨?_, ?_, ?_, ?_⟩
  · simp [schemeIter, schemeStep]
  · simp [schemeIter, schemeStep]
  · simp [schemeIter, schemeStep]
  · intro ha heq
    apply mul_ne_zero (mul_ne_zero ha hdt) hdt
    simp only [schemeIter, schemeStep, Nat.cast_zero, zero_mul] at heq
    nlinarith [heq]

theorem C3_witness :
    (0 : ℝ) < 1 ∧ (1 : ℕ) ≤ 1 ∧
    (run .euler (undampedLaw (1 : ℝ)) 1 1 1 0).x.getD 1 0
      = 1 + 0 * ((1 : ℝ) / ((1 : ℕ) : ℝ)) :=
  ⟨one_pos, le_rfl,
    (C3_first_step (undampedLaw 1) 1 1 1 0 one_pos le_rfl).2.1⟩

/-- C10: loop iteration i writes only the samples at index i+1: a single
iteration leaves every index k ≤ i of both arrays unchanged; consequently
the values at indices up to n are final after the first n iterations (later
iterations never change them), and the index-0 samples keep the
caller-supplied initial conditions throughout the run.  (The time array is
never written by the loop at all: the loop state consists of x and v only,
and the time grid is a separate pure list.) -/
theorem C10_frame (sch : IntegrationScheme) (law : ℝ → ℝ → ℝ → ℝ)
    (tmax : ℝ) (N : ℕ) (x0 v0 : ℝ) :
    (∀ (s : RunState ℝ) (dt : ℝ) (i k : ℕ), k ≤ i →
      (loopBody sch law dt s i).x.getD k 0 = s.x.getD k 0 ∧
      (loopBody sch law dt s i).v.getD k 0 = s.v.getD k 0) ∧
    (∀ n m k : ℕ, k ≤ n → n ≤ m →
      (runUpTo sch law tmax N m x0 v0).x.getD k 0
        = (runUpTo sch law tmax N n x0 v0).x.getD k 0 ∧
      (runUpTo sch law tmax N m x0 v0).v.getD k 0
        = (runUpTo sch law tmax N n x0 v0).v.getD k 0) ∧
    (∀ n : ℕ,
      (runUpTo sch law tmax N n x0 v0).x.getD 0 0 = x0 ∧
      (runUpTo sch law tmax N n x0 v0).v.getD 0 0 = v0) := by
  have hmono : ∀ n m k : ℕ, k ≤ n → n ≤ m →
      (runUpTo sch law tmax N m x0 v0).x.getD k 0
        = (runUpTo sch law tmax N n x0 v0).x.getD k 0 ∧
      (runUpTo sch law tmax N m x0 v0).v.getD k 0
        = (runUpTo sch law tmax N n x0 v0).v.getD k 0 := by
    intro n m k hk hnm
    induction m with
    | zero =>
      have hn0 : n = 0 := by omega
      subst hn0
      exact ⟨rfl, rfl⟩
    | succ m ihm =>
      rcases Nat.eq_or_lt_of_le hnm with heq | hlt
      · subst heq
        exact ⟨rfl, rfl⟩
      · have hnm' : n ≤ m := by omega
        obtain ⟨ih1, ih2⟩ := ihm hnm'
        have hk' : k ≠ m + 1 := by omega
        rw [runUpTo_succ,
          getD_x_loopBody_ne sch law _ _ m k hk',
          getD_v_loopBody_ne sch law _ _ m k hk']
        exact ⟨ih1, ih2⟩
  refine ⟨?_, hmono, ?_⟩
  · intro s dt i k hk
    exact ⟨getD_x_loopBody_ne sch law dt s i k (by omega),
      getD_v_loopBody_ne sch law dt s i k (by omega)⟩
  · intro n
    obtain ⟨h1, h2⟩ := hmono 0 n 0 le_rfl (Nat.zero_le n)
    rw [h1, h2, runUpTo_zero]
    exact ⟨initState_x_zero N x0 v0, initState_v_zero N x0 v0⟩

theorem C10_witness :
    (1 : ℕ) ≤ 1 ∧ (1 : ℕ) ≤ 2 ∧
    (runUpTo .euler (undampedLaw (1 : ℝ)) 1 2 2 1 0).x.getD 1 0
      = (runUpTo .euler (undampedLaw (1 : ℝ)) 1 2 1 1 0).x.getD 1 0 ∧
    (runUpTo .euler (undampedLaw (1 : ℝ)) 1 2 2 1 0).x.getD 0 0 = 1 :=
  ⟨le_rfl, by decide,
    ((C10_frame .euler (undampedLaw 1) 1 2 1 0).2.1 1 2 1 le_rfl (by decide)).1,
    ((C10_frame .euler (undampedLaw 1) 1 2 1 0).2.2 2).1⟩

/-- C8 is false on the code: the notebook performs no input validation.
With the invalid configuration tmax = -1 ≤ 0 (and N = 5) the Euler-Cromer
run still produces a complete 6-sample trajectory, and its samples are
actually computed (x_1 = 24/25): computation proceeds, nothing is rejected
before it begins. -/
theorem C8_counterexample :
    (-1 : ℚ) ≤ 0 ∧
    (run .eulerCromer (undampedLaw 1) (-1) 5 (1 : ℚ) 0).x.length = 5 + 1 ∧
    (run .eulerCromer (undampedLaw 1) (-1) 5 (1 : ℚ) 0).x.getD 1 0 = 24 / 25 := by
  refine ⟨by norm_num, (run_spec _ _ _ _ _ _).1, ?_⟩
  have h0 : (initState 5 (1 : ℚ) 0 : RunState ℚ)
      = ⟨[1, 0, 0, 0, 0, 0], [0, 0, 0, 0, 0, 0]⟩ := rfl
  simp only [run, runUpTo, h0]
  norm_num [List.range_succ, loopBody, undampedLaw, Undamped.acc]

/-- C8 (amended): the code performs no input validation at all.  For any
N ≥ 1 an integration run computes a complete (N+1)-sample trajectory even
when tmax ≤ 0 (the initial conditions are installed, the loop executes, and
the time grid simply ends at the non-positive tmax); the exact-solution
function divides by om unguarded; nothing is rejected.  (In Python, N = 0
fails only with a ZeroDivisionError at dt = tmax/N, not with a descriptive
validation failure.) -/
theorem C8_no_validation (sch : IntegrationScheme) (law : ℝ → ℝ → ℝ → ℝ)
    (tmax : ℝ) (N : ℕ) (x0 v0 : ℝ) (_hinv : tmax ≤ 0) (hN : 1 ≤ N) :
    (run sch law tmax N x0 v0).x.length = N + 1 ∧
    (run sch law tmax N x0 v0).v.length = N + 1 ∧
    (run sch law tmax N x0 v0).x.getD 0 0 = x0 ∧
    (run sch law tmax N x0 v0).v.getD 0 0 = v0 ∧
    (tGrid tmax N).getD N 0 = tmax := by
  obtain ⟨h1, h2, h3⟩ := run_spec sch law tmax N x0 v0
  obtain ⟨hx0, hv0⟩ := h3 0 (Nat.zero_le N)
  have hNR : ((N : ℝ)) ≠ 0 := Nat.cast_ne_zero.mpr (by omega)
  refine ⟨h1, h2, hx0, hv0, ?_⟩
  rw [tGrid_getD tmax N N le_rfl]
  field_simp

theorem C8_witness :
    (-1 : ℝ) ≤ 0 ∧ (1 : ℕ) ≤ 5 ∧
    (run .euler (undampedLaw (1 : ℝ)) (-1) 5 1 0).x.length = 5 + 1 :=
  ⟨neg_nonpos.mpr zero_le_one, by decide,
    (C8_no_validation .euler (undampedLaw 1) (-1) 5 1 0
      (neg_nonpos.mpr zero_le_one) (by decide)).1⟩

/-- C9 is false on the code: the two comparison loops write the same arrays
x and v.  With om = 1, tmax = 1, N = 1, x0 = 1, v0 = 0, the Euler-Cromer run
leaves x_1 = 0, but after the Euler loop runs over the same arrays the
stored x_1 is 1: computing the Euler trajectory changed the previously
computed Euler-Cromer position sequence. -/
theorem C9_counterexample :
    (sessionECThenEuler (1 : ℚ) 1 1 1 0).x.getD 1 0
      ≠ (run .eulerCromer (undampedLaw (1 : ℚ)) 1 1 1 0).x.getD 1 0 := by
  have h0 : (initState 1 (1 : ℚ) 0 : RunState ℚ) = ⟨[1, 0], [0, 0]⟩ := rfl
  simp only [sessionECThenEuler, run, runUpTo, h0]
  norm_num [List.range_succ, loopBody, undampedLaw, Undamped.acc]

/-- C9 (amended): the two comparison runs of the undamped cell do NOT own
separate position/velocity sequences — both loops mutate the same arrays x
and v.  Running the Euler loop after the Euler-Cromer loop overwrites every
sample at indices 1..N, so only the index-0 samples of the Euler-Cromer
trajectory survive; because each Euler iteration reads only the preserved
index-0 samples and values the Euler loop itself wrote, the arrays after
the second loop are exactly those of a fresh Euler run from the same
initial conditions. -/
theorem C9_shared_state (om tmax : ℝ) (N : ℕ) (x0 v0 : ℝ) :
    sessionECThenEuler om tmax N x0 v0
      = run .euler (undampedLaw om) tmax N x0 v0 ∧
    (sessionECThenEuler om tmax N x0 v0).x.getD 0 0 = x0 ∧
    (sessionECThenEuler om tmax N x0 v0).v.getD 0 0 = v0 := by
  obtain ⟨hL1, hL2, hCval⟩ := run_spec .eulerCromer (undampedLaw om) tmax N x0 v0
  obtain ⟨hC0x, hC0v⟩ := hCval 0 (Nat.zero_le N)
  simp only [schemeIter] at hC0x hC0v
  have hs : sessionECThenEuler om tmax N x0 v0
      = (List.range N).foldl (loopBody .euler (undampedLaw om) (tmax / (N : ℝ)))
          (run .eulerCromer (undampedLaw om) tmax N x0 v0) := rfl
  have hfold := foldl_loopBody_spec .euler (undampedLaw om) (tmax / (N : ℝ))
    (run .eulerCromer (undampedLaw om) tmax N x0 v0) N hL1 hL2 N le_rfl
  rw [hC0x, hC0v] at hfold
  obtain ⟨hfx, hfv, hfval, -⟩ := hfold
  obtain ⟨hex, hev, heval⟩ := run_spec .euler (undampedLaw om) tmax N x0 v0
  have hxeq : (sessionECThenEuler om tmax N x0 v0).x
      = (run .euler (undampedLaw om) tmax N x0 v0).x := by
    rw [hs]
    refine list_eq_of_length_getD _ _ N hfx hex ?_
    intro k hk
    rw [(hfval k hk).1, (heval k hk).1]
  have hveq : (sessionECThenEuler om tmax N x0 v0).v
      = (run .euler (undampedLaw om) tmax N x0 v0).v := by
    rw [hs]
    refine list_eq_of_length_getD _ _ N hfv hev ?_
    intro k hk
    rw [(hfval k hk).2, (heval k hk).2]
  have h0x := (hfval 0 (Nat.zero_le N)).1
  have h0v := (hfval 0 (Nat.zero_le N)).2
  rw [← hs] at h0x h0v
  simp only [schemeIter] at h0x h0v
  exact ⟨RunState.ext hxeq hveq, h0x, h0v⟩

/-! ### Energy behaviour of the two schemes on the undamped example
(om = 5, x0 = 1/2, v0 = 5, N = 100, tmax = 5, dt = 1/20). -/

theorem euler_undamped_energy_step (i : ℕ) (p : ℝ × ℝ) :
    energy (5 : ℝ) (schemeStep .euler (undampedLaw (5 : ℝ)) (1 / 20) i p).1
      (schemeStep .euler (undampedLaw (5 : ℝ)) (1 / 20) i p).2
      = 17 / 16 * energy (5 : ℝ) p.1 p.2 := by
  simp only [schemeStep, undampedLaw, Undamped.acc, energy]
  ring

theorem euler_undamped_energy_pow (i : ℕ) :
    energy (5 : ℝ) (schemeIter .euler (undampedLaw (5 : ℝ)) (1 / 20) (1 / 2) 5 i).1
      (schemeIter .euler (undampedLaw (5 : ℝ)) (1 / 20) (1 / 2) 5 i).2
      = (17 / 16) ^ i * (125 / 8) := by
  induction i with
  | zero =>
    simp only [schemeIter, energy, pow_zero]
    norm_num
  | succ n ih =>
    have hs : schemeIter .euler (undampedLaw (5 : ℝ)) (1 / 20) (1 / 2) 5 (n + 1)
        = schemeStep .euler (undampedLaw (5 : ℝ)) (1 / 20) n
            (schemeIter .euler (undampedLaw (5 : ℝ)) (1 / 20) (1 / 2) 5 n) := rfl
    rw [hs, euler_undamped_energy_step, ih, pow_succ]
    ring

theorem ec_undamped_invariant_step (i : ℕ) (p : ℝ × ℝ) :
    energy (5 : ℝ) (schemeStep .eulerCromer (undampedLaw (5 : ℝ)) (1 / 20) i p).1
        (schemeStep .eulerCromer (undampedLaw (5 : ℝ)) (1 / 20) i p).2
      - 5 / 8 * (schemeStep .eulerCromer (undampedLaw (5 : ℝ)) (1 / 20) i p).1
        * (schemeStep .eulerCromer (undampedLaw (5 : ℝ)) (1 / 20) i p).2
      = energy (5 : ℝ) p.1 p.2 - 5 / 8 * p.1 * p.2 := by
  simp only [schemeStep, undampedLaw, Undamped.acc, energy]
  ring

theorem ec_undamped_invariant (i : ℕ) :
    energy (5 : ℝ) (schemeIter .eulerCromer (undampedLaw (5 : ℝ)) (1 / 20) (1 / 2) 5 i).1
        (schemeIter .eulerCromer (undampedLaw (5 : ℝ)) (1 / 20) (1 / 2) 5 i).2
      - 5 / 8 * (schemeIter .eulerCromer (undampedLaw (5 : ℝ)) (1 / 20) (1 / 2) 5 i).1
        * (schemeIter .eulerCromer (undampedLaw (5 : ℝ)) (1 / 20) (1 / 2) 5 i).2
      = 225 / 16 := by
  induction i with
  | zero =>
    simp only [schemeIter, energy]
    norm_num
  | succ n ih =>
    have hs : schemeIter .eulerCromer (undampedLaw (5 : ℝ)) (1 / 20) (1 / 2) 5 (n + 1)
        = schemeStep .eulerCromer (undampedLaw (5 : ℝ)) (1 / 20) n
            (schemeIter .eulerCromer (undampedLaw (5 : ℝ)) (1 / 20) (1 / 2) 5 n) := rfl
    rw [hs, ec_undamped_invariant_step, ih]

theorem ec_energy_window (x v : ℝ)
    (hQ : energy (5 : ℝ) x v - 5 / 8 * x * v = 225 / 16) :
    |energy (5 : ℝ) x v - 125 / 8| ≤ 25 / 8 := by
  simp only [energy] at hQ ⊢
  rw [abs_le]
  constructor <;> nlinarith [sq_nonneg (v + 5 * x), sq_nonneg (v - 5 * x)]

/-- C2: for the undamped law with om = 5, x0 = 1/2, v0 = 5, N = 100,
tmax = 5 (so dt = 1/20), the numerically estimated energy
(1/2)v_i^2 + (1/2)·25·x_i^2 strictly increases at every step of the basic
Euler run (it is multiplied by 17/16 each step), while along the
Euler-Cromer run it stays within 25/8 = 20% of its initial value
125/8 = 15.625 at every sampled index: bounded oscillation, no drift. -/
theorem C2_energy_behaviour :
    (∀ i : ℕ, i < 100 →
      energy 5 ((run .euler (undampedLaw (5 : ℝ)) 5 100 (1 / 2) 5).x.getD i 0)
          ((run .euler (undampedLaw (5 : ℝ)) 5 100 (1 / 2) 5).v.getD i 0)
        < energy 5 ((run .euler (undampedLaw (5 : ℝ)) 5 100 (1 / 2) 5).x.getD (i + 1) 0)
          ((run .euler (undampedLaw (5 : ℝ)) 5 100 (1 / 2) 5).v.getD (i + 1) 0)) ∧
    (∀ i : ℕ, i ≤ 100 →
      |energy 5 ((run .eulerCromer (undampedLaw (5 : ℝ)) 5 100 (1 / 2) 5).x.getD i 0)
          ((run .eulerCromer (undampedLaw (5 : ℝ)) 5 100 (1 / 2) 5).v.getD i 0)
        - 125 / 8| ≤ 25 / 8) := by
  have hdt : (5 : ℝ) / ((100 : ℕ) : ℝ) = 1 / 20 := by norm_num
  obtain ⟨-, -, hEval⟩ := run_spec .euler (undampedLaw (5 : ℝ)) 5 100 (1 / 2) 5
  obtain ⟨-, -, hCval⟩ := run_spec .eulerCromer (undampedLaw (5 : ℝ)) 5 100 (1 / 2) 5
  constructor
  · intro i hi
    obtain ⟨hxi, hvi⟩ := hEval i (by omega)
    obtain ⟨hxi1, hvi1⟩ := hEval (i + 1) (by omega)
    rw [hdt] at hxi hvi hxi1 hvi1
    rw [hxi, hvi, hxi1, hvi1, euler_undamped_energy_pow i,
      euler_undamped_energy_pow (i + 1), pow_succ]
    have hpos : (0 : ℝ) < (17 / 16) ^ i := by positivity
    nlinarith [hpos]
  · intro i hi
    obtain ⟨hxi, hvi⟩ := hCval i (by omega)
    rw [hdt] at hxi hvi
    rw [hxi, hvi]
    exact ec_energy_window _ _ (ec_undamped_invariant i)

theorem C4_witness :
    (0 : ℝ) < 1 ∧ (1 : ℕ) ≤ 1 ∧ (tGrid (1 : ℝ) 1).getD 1 0 = 1 :=
  ⟨one_pos, le_rfl, (C4_time_grid 1 1 one_pos le_rfl).2.2.1⟩

theorem C5_witness :
    (1 : ℕ) ≤ 1 ∧
    (run .euler (undampedLaw (1 : ℝ)) 1 1 1 0).x.length = 1 + 1 ∧
    (run .euler (undampedLaw (1 : ℝ)) 1 1 1 0).x.getD 0 0 = 1 :=
  ⟨le_rfl, (C5_length_and_initial .euler (undampedLaw 1) 1 1 1 0 le_rfl).1,
    (C5_length_and_initial .euler (undampedLaw 1) 1 1 1 0 le_rfl).2.2.2.1⟩

theorem C2_witness :
    (0 : ℕ) < 100 ∧ (0 : ℕ) ≤ 100 ∧
    energy 5 ((run .euler (undampedLaw (5 : ℝ)) 5 100 (1 / 2) 5).x.getD 0 0)
        ((run .euler (undampedLaw (5 : ℝ)) 5 100 (1 / 2) 5).v.getD 0 0)
      < energy 5 ((run .euler (undampedLaw (5 : ℝ)) 5 100 (1 / 2) 5).x.getD (0 + 1) 0)
        ((run .euler (undampedLaw (5 : ℝ)) 5 100 (1 / 2) 5).v.getD (0 + 1) 0) ∧
    |energy 5 ((run .eulerCromer (undampedLaw (5 : ℝ)) 5 100 (1 / 2) 5).x.getD 0 0)
        ((run .eulerCromer (undampedLaw (5 : ℝ)) 5 100 (1 / 2) 5).v.getD 0 0)
      - 125 / 8| ≤ 25 / 8 :=
  ⟨by decide, by decide,
    C2_energy_behaviour.1 0 (by decide),
    C2_energy_behaviour.2 0 (by decide)⟩

end OscLab
